import Mathlib

/-!
Shallow embedding of the core of `AdditiveSynthesizer/Source/additive_synth.h`.

Float arithmetic is modelled exactly over `ℚ`; literals such as `0.001f`
are taken at their decimal value. Transcendental functions that the code
obtains from the C library (`std::sin`, `std::pow`) are passed in as
function parameters, since the claims under verification concern control
flow, state updates and algebraic structure, never particular sine values.
Stateful C++ methods become pure functions from the object state to the
new state (paired with the returned value where the method returns one).
-/

namespace Constants

abbrev MAX_HARMONICS : ℕ := 128

def TWO_PI : ℚ := 6.28318530717958647692

end Constants

/-- Embeds `juce::jlimit(lowerLimit, upperLimit, value)`. -/
def jlimit (lowerLimit upperLimit value : ℚ) : ℚ :=
  if value < lowerLimit then lowerLimit
  else if upperLimit < value then upperLimit
  else value

/-- One harmonic slot, `struct HarmonicData` (default member initialisers). -/
@[ext]
structure HarmonicData where
  amplitude : ℚ := 0
  phase : ℚ := 0
  enabled : Bool := false
deriving DecidableEq

/-- Embeds `class HarmonicState`: the 128-slot spectrum. -/
@[ext]
structure HarmonicState where
  harmonics : Fin Constants.MAX_HARMONICS → HarmonicData
deriving DecidableEq

/-- Embeds `clear()`: zero every slot. -/
def HarmonicState.clear (_s : HarmonicState) : HarmonicState :=
  { harmonics := fun _ => {} }

/-- The default-constructed state (the constructor calls `clear()`). -/
def HarmonicState.init : HarmonicState :=
  { harmonics := fun _ => {} }

/-- Embeds `setHarmonic(index, amplitude, phase)`; index modelled as `ℤ` since the
C++ parameter is a signed `int` and out-of-range values are checked. -/
def HarmonicState.setHarmonic (s : HarmonicState) (index : ℤ)
    (amplitude : ℚ) (phase : ℚ := 0) : HarmonicState :=
  if 0 ≤ index ∧ index < (Constants.MAX_HARMONICS : ℤ) then
    { harmonics := fun j =>
        if (j : ℤ) = index then
          { amplitude := jlimit 0 1 amplitude
            phase := phase
            enabled := decide ((0.001 : ℚ) < amplitude) }
        else s.harmonics j }
  else s

/-- Embeds `setHarmonicAmplitude(index, amplitude)`: like `setHarmonic` but leaves
the stored phase alone. -/
def HarmonicState.setHarmonicAmplitude (s : HarmonicState) (index : ℤ)
    (amplitude : ℚ) : HarmonicState :=
  if 0 ≤ index ∧ index < (Constants.MAX_HARMONICS : ℤ) then
    { harmonics := fun j =>
        if (j : ℤ) = index then
          { amplitude := jlimit 0 1 amplitude
            phase := (s.harmonics j).phase
            enabled := decide ((0.001 : ℚ) < amplitude) }
        else s.harmonics j }
  else s

/-- Embeds `getHarmonic(index)`: in-range slot, else the zero/disabled sentinel. -/
def HarmonicState.getHarmonic (s : HarmonicState) (index : ℤ) : HarmonicData :=
  if h : 0 ≤ index ∧ index < (Constants.MAX_HARMONICS : ℤ) then
    s.harmonics ⟨index.toNat, by omega⟩
  else {}

/-- Embeds `getHarmonicAmplitude(index)`: in-range amplitude, else `0`. -/
def HarmonicState.getHarmonicAmplitude (s : HarmonicState) (index : ℤ) : ℚ :=
  if h : 0 ≤ index ∧ index < (Constants.MAX_HARMONICS : ℤ) then
    (s.harmonics ⟨index.toNat, by omega⟩).amplitude
  else 0

/-- Embeds `morphTo(target, amount)`: clamp `amount` to `[0,1]`, then linearly
interpolate every slot's amplitude and phase toward `target`, in place.
The `enabled` field of each slot is not touched by the loop. -/
def HarmonicState.morphTo (s : HarmonicState) (target : HarmonicState)
    (amount : ℚ) : HarmonicState :=
  let a := jlimit 0 1 amount
  { harmonics := fun i =>
      { amplitude := (s.harmonics i).amplitude * (1 - a) +
          (target.harmonics i).amplitude * a
        phase := (s.harmonics i).phase * (1 - a) +
          (target.harmonics i).phase * a
        enabled := (s.harmonics i).enabled } }

/-- Embeds `copyFrom(other)`: wholesale assignment of the harmonics array. -/
def HarmonicState.copyFrom (_s : HarmonicState) (other : HarmonicState) :
    HarmonicState :=
  { harmonics := other.harmonics }

/-- Amplitude written by the "Saw" branch of `loadPreset` at slot `i`
(after the initial `clear()`). -/
def sawAmp (i : ℕ) : ℚ :=
  if i < 32 then 1 / ((i : ℚ) + 1) else 0

/-- Amplitude written by the "Square" branch (loop steps by 2). -/
def squareAmp (i : ℕ) : ℚ :=
  if i < 32 ∧ i % 2 = 0 then 1 / ((i : ℚ) + 1) else 0

/-- Amplitude written by the "Triangle" branch: even slots below 32 get
`1/(i+1)^2`, negated unless `i % 4 == 0`. -/
def triangleAmp (i : ℕ) : ℚ :=
  if i < 32 ∧ i % 2 = 0 then
    (if i % 4 = 0 then 1 / (((i : ℚ) + 1) * ((i : ℚ) + 1))
     else -(1 / (((i : ℚ) + 1) * ((i : ℚ) + 1))))
  else 0

/-- Amplitude written by the "Sine" branch. -/
def sineAmp (i : ℕ) : ℚ :=
  if i = 0 then 1 else 0

/-- Amplitude written by the "Organ" branch. -/
def organAmp (i : ℕ) : ℚ :=
  if i = 0 then 1 else if i = 2 then 0.5 else if i = 4 then 0.3 else 0

/-- Amplitude present in slot `i` after `loadPreset(presetName)`'s branch
dispatch (an unknown name leaves the cleared spectrum). -/
def presetAmp (presetName : String) (i : ℕ) : ℚ :=
  if presetName = "Saw" then sawAmp i
  else if presetName = "Square" then squareAmp i
  else if presetName = "Triangle" then triangleAmp i
  else if presetName = "Sine" then sineAmp i
  else if presetName = "Organ" then organAmp i
  else 0

/-- Embeds `loadPreset(presetName)`: `clear()`, write the branch's amplitudes
directly (no clamping; phase stays 0), then recompute every slot's
`enabled` from the stored amplitude. -/
def HarmonicState.loadPreset (_s : HarmonicState) (presetName : String) :
    HarmonicState :=
  { harmonics := fun i =>
      { amplitude := presetAmp presetName i
        phase := 0
        enabled := decide ((0.001 : ℚ) < presetAmp presetName i) } }

/-- Embeds `class SineWaveGenerator` (default member initialisers). -/
structure SineWaveGenerator where
  sampleRate : ℚ := 44100
  frequency : ℚ := 440
  amplitude : ℚ := 0
  currentPhase : ℚ := 0
  phaseIncrement : ℚ := 0
deriving DecidableEq

/-- Embeds `updatePhaseIncrement()`: cache `2π·frequency/sampleRate`. -/
def SineWaveGenerator.updatePhaseIncrement (g : SineWaveGenerator) :
    SineWaveGenerator :=
  { g with phaseIncrement := Constants.TWO_PI * g.frequency / g.sampleRate }

/-- Embeds `prepare(sr)`. -/
def SineWaveGenerator.prepare (g : SineWaveGenerator) (sr : ℚ) :
    SineWaveGenerator :=
  SineWaveGenerator.updatePhaseIncrement { g with sampleRate := sr }

/-- Embeds `reset()`: zero the phase. -/
def SineWaveGenerator.reset (g : SineWaveGenerator) : SineWaveGenerator :=
  { g with currentPhase := 0 }

/-- Embeds `setFrequency(freq)`. -/
def SineWaveGenerator.setFrequency (g : SineWaveGenerator) (freq : ℚ) :
    SineWaveGenerator :=
  SineWaveGenerator.updatePhaseIncrement { g with frequency := freq }

/-- Embeds `setAmplitude(amp)`: clamped store. -/
def SineWaveGenerator.setAmplitude (g : SineWaveGenerator) (amp : ℚ) :
    SineWaveGenerator :=
  { g with amplitude := jlimit 0 1 amp }

/-- Embeds `getNextSample()`; `sinF` stands for `std::sin`. Returns the new
generator state together with the emitted sample. -/
def SineWaveGenerator.getNextSample (sinF : ℚ → ℚ) (g : SineWaveGenerator) :
    SineWaveGenerator × ℚ :=
  if g.amplitude < 0.001 then (g, 0)
  else
    let sample := g.amplitude * sinF g.currentPhase
    let advanced := g.currentPhase + g.phaseIncrement
    let wrapped :=
      if Constants.TWO_PI ≤ advanced then advanced - Constants.TWO_PI
      else advanced
    ({ g with currentPhase := wrapped }, sample)

/-- Embeds `class HarmonicOscillator` (default member initialisers). -/
structure HarmonicOscillator where
  oscillators : Fin Constants.MAX_HARMONICS → SineWaveGenerator
  fundamentalFrequency : ℚ := 440
  masterGain : ℚ := 0.5

/-- Embeds `setHarmonicState(state)`: push each slot's amplitude to its oscillator. -/
def HarmonicOscillator.setHarmonicState (h : HarmonicOscillator)
    (state : HarmonicState) : HarmonicOscillator :=
  { h with oscillators := fun i =>
      (h.oscillators i).setAmplitude (state.getHarmonicAmplitude (i : ℤ)) }

/-- Embeds `setFrequency(freq)`: store the fundamental and retune oscillator `i`
to `freq·(i+1)`. -/
def HarmonicOscillator.setFrequency (h : HarmonicOscillator) (freq : ℚ) :
    HarmonicOscillator :=
  { h with
      fundamentalFrequency := freq
      oscillators := fun i =>
        (h.oscillators i).setFrequency (freq * ((i : ℚ) + 1)) }

/-- One iteration of the summation loop in `HarmonicOscillator::getNextSample`:
the oscillator's `getNextSample` is called once, and — exactly as the source
is written — called a second time whenever the first returned sample is
nonzero, with the second sample being what is accumulated. -/
def oscStep (sinF : ℚ → ℚ) (g : SineWaveGenerator) : SineWaveGenerator × ℚ :=
  let r1 := g.getNextSample sinF
  if r1.2 ≠ 0 then
    let r2 := r1.1.getNextSample sinF
    (r2.1, r2.2)
  else (r1.1, 0)

/-- The accumulator update of the summation loop: run `oscStep` on
oscillator `i`, store its new state back, add its contribution. -/
def bankStep (sinF : ℚ → ℚ)
    (acc : (Fin Constants.MAX_HARMONICS → SineWaveGenerator) × ℚ)
    (i : Fin Constants.MAX_HARMONICS) :
    (Fin Constants.MAX_HARMONICS → SineWaveGenerator) × ℚ :=
  let r := oscStep sinF (acc.1 i)
  (Function.update acc.1 i r.1, acc.2 + r.2)

/-- Embeds `HarmonicOscillator::getNextSample()`: run the summation loop over all
128 oscillators in index order, then scale by `masterGain`. -/
def HarmonicOscillator.getNextSample (sinF : ℚ → ℚ) (h : HarmonicOscillator) :
    HarmonicOscillator × ℚ :=
  let res := (List.finRange Constants.MAX_HARMONICS).foldl (bankStep sinF)
    (h.oscillators, 0)
  ({ h with oscillators := res.1 }, res.2 * h.masterGain)

/-- Embeds `EnvelopeProcessor::State`. -/
inductive EnvState
  | Idle
  | Attack
  | Decay
  | Sustain
  | Release
deriving DecidableEq

/-- Embeds `class EnvelopeProcessor` (default member initialisers). -/
structure EnvelopeProcessor where
  currentState : EnvState := EnvState.Idle
  sampleRate : ℚ := 44100
  currentLevel : ℚ := 0
  attackTime : ℚ := 0.01
  decayTime : ℚ := 0.1
  sustainLevel : ℚ := 0.7
  releaseTime : ℚ := 0.5
  attackRate : ℚ := 0
  decayRate : ℚ := 0
  releaseRate : ℚ := 0
deriving DecidableEq

/-- Embeds `calculateRates()`. -/
def EnvelopeProcessor.calculateRates (e : EnvelopeProcessor) :
    EnvelopeProcessor :=
  { e with
      attackRate := 1 / (e.attackTime * e.sampleRate)
      decayRate := (1 - e.sustainLevel) / (e.decayTime * e.sampleRate)
      releaseRate := e.sustainLevel / (e.releaseTime * e.sampleRate) }

/-- Embeds `prepare(sr)`. -/
def EnvelopeProcessor.prepare (e : EnvelopeProcessor) (sr : ℚ) :
    EnvelopeProcessor :=
  EnvelopeProcessor.calculateRates { e with sampleRate := sr }

/-- Embeds `noteOn()`. -/
def EnvelopeProcessor.noteOn (e : EnvelopeProcessor) : EnvelopeProcessor :=
  { e with currentState := EnvState.Attack, currentLevel := 0 }

/-- Embeds `noteOff()`. -/
def EnvelopeProcessor.noteOff (e : EnvelopeProcessor) : EnvelopeProcessor :=
  { e with currentState := EnvState.Release }

/-- Embeds `setAttack(seconds)`. -/
def EnvelopeProcessor.setAttack (e : EnvelopeProcessor) (seconds : ℚ) :
    EnvelopeProcessor :=
  EnvelopeProcessor.calculateRates { e with attackTime := seconds }

/-- Embeds `setDecay(seconds)`. -/
def EnvelopeProcessor.setDecay (e : EnvelopeProcessor) (seconds : ℚ) :
    EnvelopeProcessor :=
  EnvelopeProcessor.calculateRates { e with decayTime := seconds }

/-- Embeds `setSustain(level)`: clamped store; the source does not call
`calculateRates()` here. -/
def EnvelopeProcessor.setSustain (e : EnvelopeProcessor) (level : ℚ) :
    EnvelopeProcessor :=
  { e with sustainLevel := jlimit 0 1 level }

/-- Embeds `setRelease(seconds)`. -/
def EnvelopeProcessor.setRelease (e : EnvelopeProcessor) (seconds : ℚ) :
    EnvelopeProcessor :=
  EnvelopeProcessor.calculateRates { e with releaseTime := seconds }

/-- Embeds `class AdditiveVoice` (oscillator bank, envelope, velocity). -/
structure AdditiveVoice where
  oscillator : HarmonicOscillator
  envelope : EnvelopeProcessor := {}
  currentVelocity : ℚ := 1

/-- Embeds `startNote(midiNoteNumber, velocity, ...)`; `pow2` stands for
`std::pow(2.0f, ·)`. -/
def AdditiveVoice.startNote (pow2 : ℚ → ℚ) (v : AdditiveVoice)
    (midiNoteNumber : ℤ) (velocity : ℚ) : AdditiveVoice :=
  let freq := 440 * pow2 (((midiNoteNumber : ℚ) - 69) / 12)
  { v with
      currentVelocity := velocity
      oscillator := v.oscillator.setFrequency freq
      envelope := v.envelope.noteOn }

/-- Embeds `class MorphingEngine` (two spectra and a blend factor). -/
structure MorphingEngine where
  sourceState : HarmonicState := HarmonicState.init
  targetState : HarmonicState := HarmonicState.init
  morphAmount : ℚ := 0

/-- Embeds `setMorphAmount(amount)`: clamped store. -/
def MorphingEngine.setMorphAmount (e : MorphingEngine) (amount : ℚ) :
    MorphingEngine :=
  { e with morphAmount := jlimit 0 1 amount }

/-- Embeds `getCurrentState()`: a `const` method — it builds a fresh
`HarmonicState`, copies the source into it, morphs the copy toward the
target, and returns it, leaving the engine untouched. Modelled as
state-passing to make the frame condition visible. -/
def MorphingEngine.getCurrentState (e : MorphingEngine) :
    MorphingEngine × HarmonicState :=
  (e, (HarmonicState.init.copyFrom e.sourceState).morphTo e.targetState
        e.morphAmount)

/-! ## Helper lemmas -/

theorem jlimit_mem (lo hi v : ℚ) (hlh : lo ≤ hi) :
    lo ≤ jlimit lo hi v ∧ jlimit lo hi v ≤ hi := by
  unfold jlimit
  split_ifs with h1 h2 <;> constructor <;> linarith

theorem jlimit_idem (v : ℚ) : jlimit 0 1 (jlimit 0 1 v) = jlimit 0 1 v := by
  unfold jlimit
  split_ifs <;> linarith

theorem jlimit_thresh_iff (a : ℚ) :
    (0.001 : ℚ) < jlimit 0 1 a ↔ (0.001 : ℚ) < a := by
  unfold jlimit
  split_ifs with h1 h2 <;> constructor <;> intro h <;> nlinarith

theorem jlimit_of_mem (v : ℚ) (h0 : 0 ≤ v) (h1 : v ≤ 1) : jlimit 0 1 v = v := by
  unfold jlimit
  split_ifs <;> linarith

theorem lerp_mem (x y a : ℚ) (hx0 : 0 ≤ x) (hx1 : x ≤ 1) (hy0 : 0 ≤ y)
    (hy1 : y ≤ 1) (ha0 : 0 ≤ a) (ha1 : a ≤ 1) :
    0 ≤ x * (1 - a) + y * a ∧ x * (1 - a) + y * a ≤ 1 := by
  constructor <;> nlinarith

/-! ## Claims -/

/-- C5: for every in-range index `i` and every amplitude `a`, after
`setHarmonicAmplitude(i, a)` the read-back amplitude is `clamp(a,0,1)` and
the slot's `enabled` flag equals `clamp(a,0,1) > 0.001`. -/
theorem setHarmonicAmplitude_get_clamped (s : HarmonicState) (i : ℤ) (a : ℚ)
    (h0 : 0 ≤ i) (h1 : i < (Constants.MAX_HARMONICS : ℤ)) :
    (s.setHarmonicAmplitude i a).getHarmonicAmplitude i = jlimit 0 1 a ∧
      ((s.setHarmonicAmplitude i a).getHarmonic i).enabled =
        decide ((0.001 : ℚ) < jlimit 0 1 a) := by
  have hir : 0 ≤ i ∧ i < (Constants.MAX_HARMONICS : ℤ) := ⟨h0, h1⟩
  have hfin : ((⟨i.toNat, by omega⟩ : Fin Constants.MAX_HARMONICS) : ℤ) = i := by
    simp [Int.toNat_of_nonneg h0]
  constructor
  · unfold HarmonicState.setHarmonicAmplitude HarmonicState.getHarmonicAmplitude
    rw [if_pos hir, dif_pos hir]
    simp only [hfin, if_pos]
  · unfold HarmonicState.setHarmonicAmplitude HarmonicState.getHarmonic
    rw [if_pos hir, dif_pos hir]
    simp only [hfin, if_pos]
    exact (decide_eq_decide.mpr (jlimit_thresh_iff a)).symm

/-- C5 witness: instantiated at the cleared state, slot 5, amplitude 2
(clamped to 1, enabled). -/
theorem setHarmonicAmplitude_get_clamped_witness :
    (HarmonicState.init.setHarmonicAmplitude 5 2).getHarmonicAmplitude 5 =
        jlimit 0 1 2 ∧
      ((HarmonicState.init.setHarmonicAmplitude 5 2).getHarmonic 5).enabled =
        decide ((0.001 : ℚ) < jlimit 0 1 2) :=
  setHarmonicAmplitude_get_clamped HarmonicState.init 5 2 (by norm_num)
    (by norm_num)

/-- C7: an out-of-range index makes `getHarmonic` return the zero/disabled
sentinel, `getHarmonicAmplitude` return 0, and both setters no-ops. -/
theorem out_of_range_sentinel_noop (s : HarmonicState) (i : ℤ) (a p : ℚ)
    (h : ¬(0 ≤ i ∧ i < (Constants.MAX_HARMONICS : ℤ))) :
    s.getHarmonic i = { amplitude := 0, phase := 0, enabled := false } ∧
      s.getHarmonicAmplitude i = 0 ∧
      s.setHarmonic i a p = s ∧
      s.setHarmonicAmplitude i a = s := by
  refine ⟨?_, ?_, ?_, ?_⟩
  · unfold HarmonicState.getHarmonic
    rw [dif_neg h]
  · unfold HarmonicState.getHarmonicAmplitude
    rw [dif_neg h]
  · unfold HarmonicState.setHarmonic
    rw [if_neg h]
  · unfold HarmonicState.setHarmonicAmplitude
    rw [if_neg h]

/-- C7 witness: instantiated at index `-1` (and the statement also records
that `128` is out of range for the companion bound). -/
theorem out_of_range_sentinel_noop_witness :
    (HarmonicState.init.getHarmonic (-1) =
        { amplitude := 0, phase := 0, enabled := false } ∧
      HarmonicState.init.getHarmonicAmplitude (-1) = 0 ∧
      HarmonicState.init.setHarmonic (-1) 5 7 = HarmonicState.init ∧
      HarmonicState.init.setHarmonicAmplitude (-1) 5 = HarmonicState.init) ∧
    (HarmonicState.init.getHarmonic 128 =
        { amplitude := 0, phase := 0, enabled := false } ∧
      HarmonicState.init.getHarmonicAmplitude 128 = 0 ∧
      HarmonicState.init.setHarmonic 128 5 7 = HarmonicState.init ∧
      HarmonicState.init.setHarmonicAmplitude 128 5 = HarmonicState.init) :=
  ⟨out_of_range_sentinel_noop HarmonicState.init (-1) 5 7 (by norm_num),
   out_of_range_sentinel_noop HarmonicState.init 128 5 7 (by norm_num)⟩

/-- C6: `morphTo` clamps the amount first, writes the linear interpolation
`self*(1-t) + target*t` into amplitude and phase of every slot, is the
identity at `t = 0`, reproduces the target's amplitude/phase at `t = 1`,
and takes the arithmetic mean at `t = 1/2`. -/
theorem morphTo_lerp_props (s z : HarmonicState) (t : ℚ) :
    (∀ i, (s.morphTo z t).harmonics i =
      { amplitude := (s.harmonics i).amplitude * (1 - jlimit 0 1 t) +
          (z.harmonics i).amplitude * jlimit 0 1 t
        phase := (s.harmonics i).phase * (1 - jlimit 0 1 t) +
          (z.harmonics i).phase * jlimit 0 1 t
        enabled := (s.harmonics i).enabled }) ∧
    s.morphTo z t = s.morphTo z (jlimit 0 1 t) ∧
    s.morphTo z 0 = s ∧
    (∀ i, ((s.morphTo z 1).harmonics i).amplitude =
        (z.harmonics i).amplitude ∧
      ((s.morphTo z 1).harmonics i).phase = (z.harmonics i).phase) ∧
    (∀ i, ((s.morphTo z (1/2)).harmonics i).amplitude =
        ((s.harmonics i).amplitude + (z.harmonics i).amplitude) / 2 ∧
      ((s.morphTo z (1/2)).harmonics i).phase =
        ((s.harmonics i).phase + (z.harmonics i).phase) / 2) := by
  have h0 : jlimit 0 1 (0 : ℚ) = 0 := jlimit_of_mem 0 le_rfl (by norm_num)
  have h1 : jlimit 0 1 (1 : ℚ) = 1 := jlimit_of_mem 1 (by norm_num) le_rfl
  have hh : jlimit 0 1 ((1 : ℚ)/2) = 1/2 :=
    jlimit_of_mem (1/2) (by norm_num) (by norm_num)
  refine ⟨fun i => rfl, ?_, ?_, fun i => ?_, fun i => ?_⟩
  · unfold HarmonicState.morphTo
    rw [jlimit_idem]
  · ext i
    · show (s.harmonics i).amplitude * (1 - jlimit 0 1 0) +
        (z.harmonics i).amplitude * jlimit 0 1 0 = (s.harmonics i).amplitude
      rw [h0]; ring
    · show (s.harmonics i).phase * (1 - jlimit 0 1 0) +
        (z.harmonics i).phase * jlimit 0 1 0 = (s.harmonics i).phase
      rw [h0]; ring
    · rfl
  · constructor
    · show (s.harmonics i).amplitude * (1 - jlimit 0 1 1) +
        (z.harmonics i).amplitude * jlimit 0 1 1 = (z.harmonics i).amplitude
      rw [h1]; ring
    · show (s.harmonics i).phase * (1 - jlimit 0 1 1) +
        (z.harmonics i).phase * jlimit 0 1 1 = (z.harmonics i).phase
      rw [h1]; ring
  · constructor
    · show (s.harmonics i).amplitude * (1 - jlimit 0 1 (1/2)) +
        (z.harmonics i).amplitude * jlimit 0 1 (1/2) =
          ((s.harmonics i).amplitude + (z.harmonics i).amplitude) / 2
      rw [hh]; ring
    · show (s.harmonics i).phase * (1 - jlimit 0 1 (1/2)) +
        (z.harmonics i).phase * jlimit 0 1 (1/2) =
          ((s.harmonics i).phase + (z.harmonics i).phase) / 2
      rw [hh]; ring

/-- C8: `getCurrentState` leaves the engine unchanged and returns exactly
the source spectrum morphed toward the target by the stored amount. -/
theorem getCurrentState_pure_query (e : MorphingEngine) :
    (e.getCurrentState).1 = e ∧
      (e.getCurrentState).2 =
        e.sourceState.morphTo e.targetState e.morphAmount ∧
      (∀ i, ((e.getCurrentState).2.harmonics i).amplitude =
        (e.sourceState.harmonics i).amplitude * (1 - jlimit 0 1 e.morphAmount) +
          (e.targetState.harmonics i).amplitude * jlimit 0 1 e.morphAmount) := by
  refine ⟨rfl, ?_, fun i => rfl⟩
  unfold MorphingEngine.getCurrentState HarmonicState.copyFrom
  rfl

/-- C9: when the amplitude is below 0.001, `getNextSample` returns 0 and
leaves the whole generator state unchanged; otherwise the emitted sample is
`amplitude * sin(currentPhase)` taken before the advance, the phase advances
by one `phaseIncrement` with at most one subtraction of 2π, and every other
field is unchanged. -/
theorem sine_getNextSample_silent_and_advance (sinF : ℚ → ℚ)
    (g : SineWaveGenerator) :
    (g.amplitude < 0.001 → g.getNextSample sinF = (g, 0)) ∧
    (¬ g.amplitude < 0.001 →
      (g.getNextSample sinF).2 = g.amplitude * sinF g.currentPhase ∧
      (g.getNextSample sinF).1.currentPhase =
        (if Constants.TWO_PI ≤ g.currentPhase + g.phaseIncrement then
          g.currentPhase + g.phaseIncrement - Constants.TWO_PI
         else g.currentPhase + g.phaseIncrement) ∧
      (g.getNextSample sinF).1.amplitude = g.amplitude ∧
      (g.getNextSample sinF).1.frequency = g.frequency ∧
      (g.getNextSample sinF).1.sampleRate = g.sampleRate ∧
      (g.getNextSample sinF).1.phaseIncrement = g.phaseIncrement) := by
  constructor
  · intro h
    unfold SineWaveGenerator.getNextSample
    rw [if_pos h]
  · intro h
    unfold SineWaveGenerator.getNextSample
    rw [if_neg h]
    exact ⟨rfl, rfl, rfl, rfl, rfl, rfl⟩

/-- C9 witness: a silent generator (amplitude 0) is untouched; an audible
one (amplitude 1/2, phase 1, increment 1) emits `1/2 * sin 1` and advances
to phase 2 without wrapping. -/
theorem sine_getNextSample_witness :
    (({ amplitude := 0, currentPhase := 3, phaseIncrement := 1 } :
        SineWaveGenerator).getNextSample id =
      ({ amplitude := 0, currentPhase := 3, phaseIncrement := 1 }, 0)) ∧
    ((({ amplitude := 1/2, currentPhase := 1, phaseIncrement := 1 } :
        SineWaveGenerator).getNextSample id).2 = (1/2) * id (1 : ℚ) ∧
      ((({ amplitude := 1/2, currentPhase := 1, phaseIncrement := 1 } :
        SineWaveGenerator).getNextSample id).1.currentPhase =
        if Constants.TWO_PI ≤ (1 : ℚ) + 1 then (1 : ℚ) + 1 - Constants.TWO_PI
        else (1 : ℚ) + 1)) := by
  constructor
  · exact (sine_getNextSample_silent_and_advance id
      { amplitude := 0, currentPhase := 3, phaseIncrement := 1 }).1
      (by norm_num)
  · have h := (sine_getNextSample_silent_and_advance id
      { amplitude := 1/2, currentPhase := 1, phaseIncrement := 1 }).2
      (by norm_num)
    exact ⟨h.1, h.2.1⟩

/-- C10: `startNote` retunes the bank to `440·2^((note-69)/12)`, stores the
velocity, restarts the envelope in `Attack` at level 0, and leaves every
oscillator's `currentPhase` and `amplitude` exactly as they were. -/
theorem startNote_frame (pow2 : ℚ → ℚ) (v : AdditiveVoice)
    (midiNoteNumber : ℤ) (velocity : ℚ) :
    (v.startNote pow2 midiNoteNumber velocity).oscillator.fundamentalFrequency =
        440 * pow2 (((midiNoteNumber : ℚ) - 69) / 12) ∧
    (v.startNote pow2 midiNoteNumber velocity).currentVelocity = velocity ∧
    (v.startNote pow2 midiNoteNumber velocity).envelope.currentState =
        EnvState.Attack ∧
    (v.startNote pow2 midiNoteNumber velocity).envelope.currentLevel = 0 ∧
    (∀ i, ((v.startNote pow2 midiNoteNumber velocity).oscillator.oscillators
          i).currentPhase = (v.oscillator.oscillators i).currentPhase ∧
      ((v.startNote pow2 midiNoteNumber velocity).oscillator.oscillators
          i).amplitude = (v.oscillator.oscillators i).amplitude) :=
  ⟨rfl, rfl, rfl, rfl, fun _ => ⟨rfl, rfl⟩⟩

/-! ## Amplitude-range and enabled-cache invariants -/

/-- Every slot's amplitude lies in `[0,1]`. -/
def HarmonicState.ampsInRange (s : HarmonicState) : Prop :=
  ∀ i, 0 ≤ (s.harmonics i).amplitude ∧ (s.harmonics i).amplitude ≤ 1

/-- Every slot's `enabled` flag agrees with `amplitude > 0.001` for the
stored amplitude. -/
def HarmonicState.enabledConsistent (s : HarmonicState) : Prop :=
  ∀ i, (s.harmonics i).enabled =
    decide ((0.001 : ℚ) < (s.harmonics i).amplitude)

theorem sawAmp_mem (i : ℕ) : 0 ≤ sawAmp i ∧ sawAmp i ≤ 1 := by
  unfold sawAmp
  have hi : (0 : ℚ) ≤ (i : ℚ) := Nat.cast_nonneg i
  split_ifs with h
  · constructor
    · positivity
    · rw [div_le_one (by linarith)]
      linarith
  · norm_num

theorem squareAmp_mem (i : ℕ) : 0 ≤ squareAmp i ∧ squareAmp i ≤ 1 := by
  unfold squareAmp
  have hi : (0 : ℚ) ≤ (i : ℚ) := Nat.cast_nonneg i
  split_ifs with h
  · constructor
    · positivity
    · rw [div_le_one (by linarith)]
      linarith
  · norm_num

theorem sineAmp_mem (i : ℕ) : 0 ≤ sineAmp i ∧ sineAmp i ≤ 1 := by
  unfold sineAmp
  split_ifs <;> norm_num

theorem organAmp_mem (i : ℕ) : 0 ≤ organAmp i ∧ organAmp i ≤ 1 := by
  unfold organAmp
  split_ifs <;> norm_num

theorem presetAmp_mem (name : String) (hn : name ≠ "Triangle") (i : ℕ) :
    0 ≤ presetAmp name i ∧ presetAmp name i ≤ 1 := by
  unfold presetAmp
  by_cases h1 : name = "Saw"
  · rw [if_pos h1]; exact sawAmp_mem i
  rw [if_neg h1]
  by_cases h2 : name = "Square"
  · rw [if_pos h2]; exact squareAmp_mem i
  rw [if_neg h2, if_neg hn]
  by_cases h4 : name = "Sine"
  · rw [if_pos h4]; exact sineAmp_mem i
  rw [if_neg h4]
  by_cases h5 : name = "Organ"
  · rw [if_pos h5]; exact organAmp_mem i
  rw [if_neg h5]
  norm_num

theorem init_ampsInRange : HarmonicState.init.ampsInRange := by
  intro i
  show (0 : ℚ) ≤ 0 ∧ (0 : ℚ) ≤ 1
  norm_num

theorem init_enabledConsistent : HarmonicState.init.enabledConsistent := by
  intro i
  show false = decide ((0.001 : ℚ) < 0)
  rw [decide_eq_false (by norm_num)]

/-- C3 counterexample: `loadPreset("Triangle")` leaves slot 2 with the
negative amplitude `-1/9`, so the claimed `[0,1]` range is violated. -/
theorem loadPreset_triangle_negative_amp :
    ((HarmonicState.init.loadPreset "Triangle").harmonics
      ⟨2, by norm_num⟩).amplitude < 0 := by
  show presetAmp "Triangle" 2 < 0
  unfold presetAmp triangleAmp
  rw [if_neg (by decide : ¬("Triangle" = "Saw")),
    if_neg (by decide : ¬("Triangle" = "Square")),
    if_pos rfl]
  norm_num

/-- C3 (amended): every `HarmonicState` operation except
`loadPreset("Triangle")` keeps every slot's amplitude in `[0,1]`:
the setters, `morphTo` and `copyFrom` preserve it, `clear` establishes it,
and `loadPreset` establishes it for every preset name other than
`"Triangle"`. -/
theorem amps_in_range_ops (s t : HarmonicState) (i : ℤ) (a p amt : ℚ)
    (name : String) (hs : s.ampsInRange) (ht : t.ampsInRange)
    (hn : name ≠ "Triangle") :
    (s.setHarmonic i a p).ampsInRange ∧
    (s.setHarmonicAmplitude i a).ampsInRange ∧
    (s.morphTo t amt).ampsInRange ∧
    (s.copyFrom t).ampsInRange ∧
    (s.clear).ampsInRange ∧
    (s.loadPreset name).ampsInRange := by
  refine ⟨?_, ?_, ?_, ?_, ?_, ?_⟩
  · intro j
    unfold HarmonicState.setHarmonic
    split_ifs with hr
    · dsimp only
      split_ifs with hj
      · exact jlimit_mem 0 1 a (by norm_num)
      · exact hs j
    · exact hs j
  · intro j
    unfold HarmonicState.setHarmonicAmplitude
    split_ifs with hr
    · dsimp only
      split_ifs with hj
      · exact jlimit_mem 0 1 a (by norm_num)
      · exact hs j
    · exact hs j
  · intro j
    obtain ⟨ha0, ha1⟩ := jlimit_mem 0 1 amt (by norm_num)
    exact lerp_mem _ _ _ (hs j).1 (hs j).2 (ht j).1 (ht j).2 ha0 ha1
  · exact fun j => ht j
  · intro j
    show (0 : ℚ) ≤ 0 ∧ (0 : ℚ) ≤ 1
    norm_num
  · exact fun j => presetAmp_mem name hn j

/-- C3 witness: the amended invariant instantiated at the cleared state,
slot 3, amplitude 5, morph amount 1/2 and the "Saw" preset. -/
theorem amps_in_range_ops_witness :
    (HarmonicState.init.setHarmonic 3 5 0).ampsInRange ∧
    (HarmonicState.init.setHarmonicAmplitude 3 5).ampsInRange ∧
    (HarmonicState.init.morphTo HarmonicState.init (1/2)).ampsInRange ∧
    (HarmonicState.init.copyFrom HarmonicState.init).ampsInRange ∧
    (HarmonicState.init.clear).ampsInRange ∧
    (HarmonicState.init.loadPreset "Saw").ampsInRange :=
  amps_in_range_ops HarmonicState.init HarmonicState.init 3 5 0 (1/2) "Saw"
    init_ampsInRange init_ampsInRange (by decide)

/-- C4 counterexample: after `morphTo` the `enabled` cache can be stale —
starting from a state whose slot 0 has amplitude 1 (enabled), morphing
fully toward the cleared state leaves slot 0 with amplitude 0 but
`enabled` still true. -/
theorem morphTo_stale_enabled :
    (((HarmonicState.init.setHarmonicAmplitude 0 1).morphTo
        HarmonicState.init 1).harmonics ⟨0, by norm_num⟩).enabled = true ∧
    (((HarmonicState.init.setHarmonicAmplitude 0 1).morphTo
        HarmonicState.init 1).harmonics ⟨0, by norm_num⟩).amplitude = 0 := by
  constructor
  · simp [HarmonicState.morphTo, HarmonicState.setHarmonicAmplitude,
      HarmonicState.init]
    norm_num
  · simp [HarmonicState.morphTo, HarmonicState.setHarmonicAmplitude,
      HarmonicState.init, jlimit]
    norm_num

/-- C4 (amended): `setHarmonic`, `setHarmonicAmplitude`, `clear`,
`loadPreset` leave every slot with `enabled == (amplitude > 0.001)`, and
`copyFrom` preserves the property; `morphTo`, however, does not recompute
`enabled` and can leave it stale. -/
theorem enabled_consistency_ops (s t : HarmonicState) (i : ℤ) (a p : ℚ)
    (name : String) (hs : s.enabledConsistent) (ht : t.enabledConsistent) :
    (s.setHarmonic i a p).enabledConsistent ∧
    (s.setHarmonicAmplitude i a).enabledConsistent ∧
    (s.clear).enabledConsistent ∧
    (s.loadPreset name).enabledConsistent ∧
    (s.copyFrom t).enabledConsistent := by
  refine ⟨?_, ?_, ?_, ?_, ?_⟩
  · intro j
    unfold HarmonicState.setHarmonic
    split_ifs with hr
    · dsimp only
      split_ifs with hj
      · exact (decide_eq_decide.mpr (jlimit_thresh_iff a)).symm
      · exact hs j
    · exact hs j
  · intro j
    unfold HarmonicState.setHarmonicAmplitude
    split_ifs with hr
    · dsimp only
      split_ifs with hj
      · exact (decide_eq_decide.mpr (jlimit_thresh_iff a)).symm
      · exact hs j
    · exact hs j
  · intro j
    show false = decide ((0.001 : ℚ) < 0)
    rw [decide_eq_false (by norm_num)]
  · exact fun j => rfl
  · exact fun j => ht j

/-- C4 witness: the amended consistency instantiated at the cleared state,
slot 3, amplitude 5 and the "Organ" preset. -/
theorem enabled_consistency_ops_witness :
    (HarmonicState.init.setHarmonic 3 5 0).enabledConsistent ∧
    (HarmonicState.init.setHarmonicAmplitude 3 5).enabledConsistent ∧
    (HarmonicState.init.clear).enabledConsistent ∧
    (HarmonicState.init.loadPreset "Organ").enabledConsistent ∧
    (HarmonicState.init.copyFrom HarmonicState.init).enabledConsistent :=
  enabled_consistency_ops HarmonicState.init HarmonicState.init 3 5 0 "Organ"
    init_enabledConsistent init_enabledConsistent

/-! ## Oscillator-bank summation loop -/

/-- The summation loop state after folding over any duplicate-free index
list: every visited oscillator holds the state produced by `oscStep`, and
the accumulator holds the sum of the visited contributions. -/
theorem bankFold_spec (sinF : ℚ → ℚ) (l : List (Fin Constants.MAX_HARMONICS))
    (hl : l.Nodup) (f : Fin Constants.MAX_HARMONICS → SineWaveGenerator)
    (acc : ℚ) :
    (l.foldl (bankStep sinF) (f, acc)).1 =
      (fun i => if i ∈ l then (oscStep sinF (f i)).1 else f i) ∧
    (l.foldl (bankStep sinF) (f, acc)).2 =
      acc + (l.map (fun i => (oscStep sinF (f i)).2)).sum := by
  induction l generalizing f acc with
  | nil => simp
  | cons head tail ih =>
    obtain ⟨hhead, htail⟩ := List.nodup_cons.mp hl
    have hstep : bankStep sinF (f, acc) head =
        (Function.update f head (oscStep sinF (f head)).1,
          acc + (oscStep sinF (f head)).2) := rfl
    rw [List.foldl_cons, hstep]
    obtain ⟨ih1, ih2⟩ := ih htail
      (Function.update f head (oscStep sinF (f head)).1)
      (acc + (oscStep sinF (f head)).2)
    have hupd : ∀ j ∈ tail,
        Function.update f head (oscStep sinF (f head)).1 j = f j := by
      intro j hj
      refine Function.update_noteq (fun h => hhead ?_) _ f
      rw [← h]
      exact hj
    constructor
    · rw [ih1]
      funext j
      by_cases hj : j ∈ tail
      · rw [if_pos hj, if_pos (List.mem_cons_of_mem head hj), hupd j hj]
      · rw [if_neg hj]
        by_cases hjh : j = head
        · subst hjh
          rw [if_pos (List.mem_cons_self j tail), Function.update_same]
        · rw [if_neg (fun h => (List.mem_cons.mp h).elim hjh hj),
            Function.update_noteq hjh]
    · rw [ih2, List.map_cons, List.sum_cons]
      have hmap : tail.map (fun i =>
          (oscStep sinF
            (Function.update f head (oscStep sinF (f head)).1 i)).2) =
          tail.map (fun i => (oscStep sinF (f i)).2) :=
        List.map_congr_left (fun j hj => by rw [hupd j hj])
      rw [hmap]
      ring

/-- What one call to `HarmonicOscillator::getNextSample` actually does:
each oscillator `i` undergoes `oscStep` (one `getNextSample` call, plus a
second one whenever the first sample is nonzero), and the output is the sum
of the `oscStep` contributions scaled by `masterGain`. -/
theorem bank_getNextSample_spec (sinF : ℚ → ℚ) (h : HarmonicOscillator) :
    (h.getNextSample sinF).1.oscillators =
      (fun i => (oscStep sinF (h.oscillators i)).1) ∧
    (h.getNextSample sinF).2 =
      (∑ i, (oscStep sinF (h.oscillators i)).2) * h.masterGain := by
  obtain ⟨h1, h2⟩ := bankFold_spec sinF (List.finRange Constants.MAX_HARMONICS)
    (List.nodup_finRange _) h.oscillators 0
  constructor
  · show ((List.finRange Constants.MAX_HARMONICS).foldl (bankStep sinF)
      (h.oscillators, 0)).1 = _
    rw [h1]
    funext j
    rw [if_pos (List.mem_finRange j)]
  · show ((List.finRange Constants.MAX_HARMONICS).foldl (bankStep sinF)
      (h.oscillators, 0)).2 * h.masterGain = _
    rw [h2, Fin.sum_univ_def, zero_add]

/-- An audible oscillator: amplitude 1, phase 1, increment 1. -/
def loudOsc : SineWaveGenerator :=
  { amplitude := 1, currentPhase := 1, phaseIncrement := 1 }

/-- A bank whose slot 0 holds `loudOsc` and whose other 127 slots hold the
default (silent) generator; `masterGain` keeps its default 0.5. -/
def demoBank : HarmonicOscillator :=
  { oscillators := fun i =>
      if i = (0 : Fin Constants.MAX_HARMONICS) then loudOsc else {} }

theorem oscStep_loud :
    oscStep id loudOsc = ({ loudOsc with currentPhase := 3 }, 2) := by
  unfold oscStep SineWaveGenerator.getNextSample loudOsc
  norm_num [Constants.TWO_PI]

theorem oscStep_default :
    oscStep id ({} : SineWaveGenerator) = ({}, 0) := by
  unfold oscStep SineWaveGenerator.getNextSample
  norm_num

/-- C1: refuted on the code. The summation loop invokes an audible
oscillator's `getNextSample` twice per output sample: with `sin` modelled
as `id`, the slot-0 oscillator (amplitude 1, phase 1, increment 1) ends one
bank sample with its phase advanced by two increments, and the returned
value is `masterGain` times the sample taken at the already-advanced phase
— not `masterGain` times the sample taken at the entry phase, as a single
invocation per oscillator would give. -/
theorem bank_getNextSample_double_call :
    ((demoBank.getNextSample id).1.oscillators
        (0 : Fin Constants.MAX_HARMONICS)).currentPhase =
      loudOsc.currentPhase + 2 * loudOsc.phaseIncrement ∧
    (demoBank.getNextSample id).2 =
      (loudOsc.amplitude * id (loudOsc.currentPhase + loudOsc.phaseIncrement)) *
        demoBank.masterGain ∧
    (demoBank.getNextSample id).2 ≠
      (loudOsc.amplitude * id loudOsc.currentPhase) * demoBank.masterGain := by
  obtain ⟨h1, h2⟩ := bank_getNextSample_spec id demoBank
  have hosc : ∀ i : Fin Constants.MAX_HARMONICS,
      (oscStep id (demoBank.oscillators i)).2 =
        if i = (0 : Fin Constants.MAX_HARMONICS) then 2 else 0 := by
    intro i
    by_cases hi : i = (0 : Fin Constants.MAX_HARMONICS)
    · rw [if_pos hi]
      show (oscStep id (if i = (0 : Fin Constants.MAX_HARMONICS) then loudOsc
        else {})).2 = 2
      rw [if_pos hi, oscStep_loud]
    · rw [if_neg hi]
      show (oscStep id (if i = (0 : Fin Constants.MAX_HARMONICS) then loudOsc
        else {})).2 = 0
      rw [if_neg hi, oscStep_default]
  have hsum : (∑ i, (oscStep id (demoBank.oscillators i)).2) = 2 := by
    rw [Finset.sum_congr rfl (fun i _ => hosc i)]
    rw [Finset.sum_ite_eq' Finset.univ (0 : Fin Constants.MAX_HARMONICS)
      (fun _ => (2 : ℚ))]
    simp
  refine ⟨?_, ?_, ?_⟩
  · rw [h1]
    show (oscStep id (demoBank.oscillators 0)).1.currentPhase = 1 + 2 * 1
    have hdb : demoBank.oscillators 0 = loudOsc := by
      show (if (0 : Fin Constants.MAX_HARMONICS) =
        (0 : Fin Constants.MAX_HARMONICS) then loudOsc else {}) = loudOsc
      rw [if_pos rfl]
    rw [hdb, oscStep_loud]
    norm_num [loudOsc]
  · rw [h2, hsum]
    show (2 : ℚ) * demoBank.masterGain =
      (1 * id ((1 : ℚ) + 1)) * demoBank.masterGain
    norm_num
  · rw [h2, hsum]
    show (2 : ℚ) * (0.5 : ℚ) ≠ (1 * id (1 : ℚ)) * (0.5 : ℚ)
    norm_num

/-! ## Envelope rate staleness -/

/-- A default-constructed `EnvelopeProcessor` after `prepare(44100)`
followed by `setSustain(1/5)`. -/
def sustainDemo : EnvelopeProcessor :=
  (({} : EnvelopeProcessor).prepare 44100).setSustain (1/5)

/-- C2: refuted on the code. Immediately after `setSustain(1/5)` the stored
sustain level is the clamped input, but `decayRate` and `releaseRate` still
hold the values computed from the previous sustain level 0.7 — `setSustain`
does not call `calculateRates()`, so the claimed consistency equations
fail. -/
theorem setSustain_stale_rates :
    sustainDemo.sustainLevel = 1/5 ∧
    sustainDemo.decayRate ≠
      (1 - sustainDemo.sustainLevel) /
        (sustainDemo.decayTime * sustainDemo.sampleRate) ∧
    sustainDemo.releaseRate ≠
      sustainDemo.sustainLevel /
        (sustainDemo.releaseTime * sustainDemo.sampleRate) := by
  refine ⟨?_, ?_, ?_⟩ <;>
    simp [sustainDemo, EnvelopeProcessor.prepare, EnvelopeProcessor.setSustain,
      EnvelopeProcessor.calculateRates, jlimit] <;>
    norm_num
